import Mathlib

/-!
Verification of the Diff Change Extractor of history-gen
(src/git_history_gen/cli.py, function iter_changes).

Lines of text are modelled as lists of characters (the input of
iter_changes is the list of lines produced by splitlines, so a line is a
finite character sequence).  Python int() is modelled for ASCII input
(surrounding whitespace, an optional sign, decimal digits with single
underscore separators); Python str.strip() is modelled over the six ASCII
whitespace characters.  All definitions are executable and reduce in the
kernel (the split helper runs on explicit fuel, always sufficient because
every step consumes at least one character).
-/

/-- Character list of a string literal. -/
def chars (s : String) : List Char := s.data

def sDiffGit : List Char := chars (r"diff --git ")

def sPPP : List Char := chars (r"+++ ")

def sMMM : List Char := chars (r"--- ")

def sBinary : List Char := chars (r"Binary files")

def sGitBin : List Char := chars (r"GIT binary patch")

def sAt : List Char := chars (r"@@ ")

def sAtAt : List Char := chars (r"@@")

def sNoNl : List Char := chars (r"\ No newline at end of file")

def sPlus : List Char := chars (r"+")

def sMinus : List Char := chars (r"-")

def sSpace : List Char := chars (r" ")

def sComma : List Char := chars (r",")

def sB : List Char := chars (r"b/")

def sPlusB : List Char := chars (r"+++ b/")

def sPP2 : List Char := chars (r"++ ")

def sMM2 : List Char := chars (r"-- ")

/-- Python raw.rstrip of newline characters: drop every trailing newline. -/
def rstripNl (l : List Char) : List Char :=
  (l.reverse.dropWhile (fun c => c == (Char.ofNat 10))).reverse

/-- Python substring membership: needle in hay. -/
def containsStr (needle : List Char) : List Char → Bool
  | [] => needle.isEmpty
  | c :: rest => needle.isPrefixOf (c :: rest) || containsStr needle rest

/-- Worker for pySplit; fuel is always at least the length of the string
plus one, and every step consumes at least one character, so the zero-fuel
branch is unreachable. -/
def pySplitGo (sep : List Char) : Nat → List Char → List Char → List (List Char)
  | 0, s, acc => [acc.reverse ++ s]
  | _ + 1, [], acc => [acc.reverse]
  | fuel + 1, x :: xs, acc =>
    if sep.isPrefixOf (x :: xs) then
      acc.reverse :: pySplitGo sep fuel (xs.drop (sep.length - 1)) []
    else
      pySplitGo sep fuel xs (x :: acc)

/-- Python str.split with a non-empty separator (iter_changes only splits
on the separators given above, all non-empty; Python raises on an empty
separator, which never happens here). -/
def pySplit (sep s : List Char) : List (List Char) :=
  match sep with
  | [] => [s]
  | _ :: _ => pySplitGo sep (s.length + 1) s []

/-- ASCII whitespace as stripped by Python str.strip(). -/
def isPySpace (c : Char) : Bool :=
  c == ' ' || c == (Char.ofNat 9) || c == (Char.ofNat 10) ||
  c == (Char.ofNat 13) || c == (Char.ofNat 11) || c == (Char.ofNat 12)

/-- Python str.strip(): remove leading and trailing whitespace. -/
def pyStrip (l : List Char) : List Char :=
  ((l.dropWhile isPySpace).reverse.dropWhile isPySpace).reverse

/-- Digit accumulator for pyInt; a single underscore is allowed between
two digits, as in Python integer literals. -/
def parseDigitsGo : Nat → List Char → Option Nat
  | acc, [] => some acc
  | acc, '_' :: c :: rest =>
    if c.isDigit then parseDigitsGo (acc * 10 + (c.toNat - 48)) rest else none
  | acc, c :: rest =>
    if c.isDigit then parseDigitsGo (acc * 10 + (c.toNat - 48)) rest else none

/-- Unsigned decimal part of Python int(): at least one digit. -/
def parseNatPy : List Char → Option Nat
  | [] => none
  | c :: rest => if c.isDigit then parseDigitsGo (c.toNat - 48) rest else none

/-- Python int(str): strip whitespace, optional sign, decimal digits;
none models the ValueError caught by iter_changes. -/
def pyInt (l : List Char) : Option Int :=
  match pyStrip l with
  | '+' :: rest => (parseNatPy rest).map (fun n => (n : Int))
  | '-' :: rest => (parseNatPy rest).map (fun n => -(n : Int))
  | rest => (parseNatPy rest).map (fun n => (n : Int))

/-- The try-block of iter_changes for a hunk header line:
header = line.split with separator sAtAt, element 1, stripped;
left and right = header split on a single space (exactly two parts);
each start = int of the first comma-separated part with its first
character removed.  Any failure (missing element, wrong number of parts,
int failure) is the caught exception, modelled as none. -/
def parseHunkHeader (line : List Char) : Option (Int × Int) :=
  match (pySplit sAtAt line).get? 1 with
  | none => none
  | some seg =>
    match pySplit sSpace (pyStrip seg) with
    | [left, right] =>
      match pyInt (((pySplit sComma left).headD []).drop 1),
            pyInt (((pySplit sComma right).headD []).drop 1) with
      | some a, some b => some (a, b)
      | _, _ => none
    | _ => none

/-- Kind of a change record: the strings add and del of the source. -/
inductive ChangeKind where
  | add : ChangeKind
  | del : ChangeKind
deriving DecidableEq, Repr

/-- One yielded dict of iter_changes. -/
structure ChangeRecord where
  file : List Char
  line : Int
  type : ChangeKind
  text : List Char
deriving DecidableEq, Repr

/-- The mutable locals of iter_changes: cur_file, old_line, new_line. -/
structure Cursor where
  cur_file : Option (List Char)
  old_line : Option Int
  new_line : Option Int
deriving DecidableEq, Repr

/-- Initial state of the loop of iter_changes. -/
def initCursor : Cursor := ⟨none, none, none⟩

/-- One iteration of the loop body of iter_changes, after rstrip, in the
exact order of the source: file headers, binary markers, hunk header,
undefined-state drop, empty and no-newline drop, then content lines. -/
def stepLine (st : Cursor) (line : List Char) : Cursor × Option ChangeRecord :=
  if sDiffGit.isPrefixOf line then
    ({ st with cur_file := none }, none)
  else if sPPP.isPrefixOf line then
    ({ st with cur_file :=
        if sB.isPrefixOf (line.drop 4) then some ((line.drop 4).drop 2) else none }, none)
  else if sMMM.isPrefixOf line then
    (st, none)
  else if containsStr sBinary line || sGitBin.isPrefixOf line then
    ({ st with cur_file := none }, none)
  else if sAt.isPrefixOf line then
    match parseHunkHeader line with
    | some ab => ({ st with old_line := some ab.1, new_line := some ab.2 }, none)
    | none => ({ st with old_line := none, new_line := none }, none)
  else if st.cur_file.isNone || st.old_line.isNone || st.new_line.isNone then
    (st, none)
  else if line.isEmpty || sNoNl.isPrefixOf line then
    (st, none)
  else if sPlus.isPrefixOf line then
    ({ st with new_line := some (st.new_line.getD 0 + 1) },
      some ⟨st.cur_file.getD [], st.new_line.getD 0, ChangeKind.add, line.drop 1⟩)
  else if sMinus.isPrefixOf line then
    ({ st with old_line := some (st.old_line.getD 0 + 1) },
      some ⟨st.cur_file.getD [], st.old_line.getD 0, ChangeKind.del, line.drop 1⟩)
  else
    ({ cur_file := st.cur_file, old_line := some (st.old_line.getD 0 + 1),
        new_line := some (st.new_line.getD 0 + 1) }, none)

/-- One iteration of iter_changes on a raw input line: rstrip the
trailing newlines, then the classification above. -/
def processLine (st : Cursor) (raw : List Char) : Cursor × Option ChangeRecord :=
  stepLine st (rstripNl raw)

/-- The loop of iter_changes from an arbitrary state: final state and the
list of yielded records in order. -/
def runFrom (st : Cursor) : List (List Char) → Cursor × List ChangeRecord
  | [] => (st, [])
  | l :: ls =>
    ((runFrom (processLine st l).1 ls).1,
      (processLine st l).2.toList ++ (runFrom (processLine st l).1 ls).2)

/-- iter_changes: the full extraction of one diff, records in yield order. -/
def iter_changes (diff_lines : List (List Char)) : List ChangeRecord :=
  (runFrom initCursor diff_lines).2

/-- Two successive extractions over the same immutable input. -/
def runTwice (diff_lines : List (List Char)) : List ChangeRecord × List ChangeRecord :=
  (iter_changes diff_lines, iter_changes diff_lines)

/-- Positivity of the two starts of a hunk header line, when it parses;
vacuously true otherwise. -/
def goodStartsL (l : List Char) : Bool :=
  match parseHunkHeader l with
  | some ab => decide (1 ≤ ab.1 ∧ 1 ≤ ab.2)
  | none => true

/-- goodStartsL after the rstrip performed on every raw input line. -/
def goodStarts (raw : List Char) : Bool := goodStartsL (rstripNl raw)

/-- Both counters, whenever defined, are at least one. -/
def countersPos (s : Cursor) : Prop :=
  (∀ v, s.old_line = some v → 1 ≤ v) ∧ (∀ v, s.new_line = some v → 1 ≤ v)

/-! Well-formed single-file diffs, for the concatenation property. -/

/-- One hunk of a well-formed diff: its raw header line and its content lines. -/
structure HunkData where
  header : List Char
  body : List (List Char)
deriving DecidableEq, Repr

/-- One well-formed single-file diff: the texts after the three header
markers, and the hunks. -/
structure FileDiffData where
  gitLine : List Char
  oldHdr : List Char
  path : List Char
  hunks : List HunkData
deriving DecidableEq, Repr

def renderHunks : List HunkData → List (List Char)
  | [] => []
  | h :: t => (h.header :: h.body) ++ renderHunks t

/-- The line sequence of a single-file diff: diff --git line, old-file
line, new-file line with a b slash path, then the hunks. -/
def renderFileDiff (d : FileDiffData) : List (List Char) :=
  (sDiffGit ++ d.gitLine) :: (sMMM ++ d.oldHdr) :: (sPlusB ++ d.path) :: renderHunks d.hunks

def renderDiffs : List FileDiffData → List (List Char)
  | [] => []
  | d :: t => renderFileDiff d ++ renderDiffs t

/-- The line carries no trailing newline, so the rstrip of iter_changes
leaves it unchanged. -/
def noNl (l : List Char) : Bool := rstripNl l == l

/-- A parseable hunk header line reaching the hunk branch of the scan. -/
def isGoodHunkHeader (l : List Char) : Bool :=
  noNl l && sAt.isPrefixOf l && !containsStr sBinary l && (parseHunkHeader l).isSome

/-- A content line of a well-formed zero-context hunk: an addition or a
deletion, not colliding with the new-file or old-file header markers and
free of the binary marker. -/
def isContentLine (l : List Char) : Bool :=
  noNl l && !containsStr sBinary l &&
    (match l with
     | '+' :: t => !sPP2.isPrefixOf t
     | '-' :: t => !sMM2.isPrefixOf t
     | _ => false)

def wfHunk (h : HunkData) : Bool :=
  isGoodHunkHeader h.header && h.body.all isContentLine

def wfFileDiff (d : FileDiffData) : Bool :=
  noNl (sDiffGit ++ d.gitLine) && noNl (sMMM ++ d.oldHdr) && noNl (sPlusB ++ d.path) &&
    d.hunks.all wfHunk

def listFlat : List (List ChangeRecord) → List ChangeRecord
  | [] => []
  | x :: t => x ++ listFlat t

/-! Explicit character forms of the marker constants, for symbolic
reasoning about lines whose tail is a variable. -/

lemma sDiffGit_def : sDiffGit = 'd' :: 'i' :: 'f' :: 'f' :: ' ' :: '-' :: '-' :: 'g' :: 'i' :: 't' :: ' ' :: [] := by decide

lemma sPPP_def : sPPP = '+' :: '+' :: '+' :: ' ' :: [] := by decide

lemma sMMM_def : sMMM = '-' :: '-' :: '-' :: ' ' :: [] := by decide

lemma sBinary_def : sBinary = 'B' :: 'i' :: 'n' :: 'a' :: 'r' :: 'y' :: ' ' :: 'f' :: 'i' :: 'l' :: 'e' :: 's' :: [] := by decide

lemma sGitBin_def : sGitBin = 'G' :: 'I' :: 'T' :: ' ' :: 'b' :: 'i' :: 'n' :: 'a' :: 'r' :: 'y' :: ' ' :: 'p' :: 'a' :: 't' :: 'c' :: 'h' :: [] := by decide

lemma sAt_def : sAt = '@' :: '@' :: ' ' :: [] := by decide

lemma sNoNl_def : sNoNl = '\\' :: ' ' :: 'N' :: 'o' :: ' ' :: 'n' :: 'e' :: 'w' :: 'l' :: 'i' :: 'n' :: 'e' :: ' ' :: 'a' :: 't' :: ' ' :: 'e' :: 'n' :: 'd' :: ' ' :: 'o' :: 'f' :: ' ' :: 'f' :: 'i' :: 'l' :: 'e' :: [] := by decide

lemma sPlus_def : sPlus = '+' :: [] := by decide

lemma sMinus_def : sMinus = '-' :: [] := by decide

lemma sB_def : sB = 'b' :: '/' :: [] := by decide

lemma sPlusB_def : sPlusB = '+' :: '+' :: '+' :: ' ' :: 'b' :: '/' :: [] := by decide

lemma sPP2_def : sPP2 = '+' :: '+' :: ' ' :: [] := by decide

lemma sMM2_def : sMM2 = '-' :: '-' :: ' ' :: [] := by decide

/-! Helper lemmas about the embedding. -/

lemma isPrefixOf_append_self (l r : List Char) : l.isPrefixOf (l ++ r) = true := by
  induction l with
  | nil => simp
  | cons a as ih => simp [List.isPrefixOf_cons₂, ih]

lemma isPrefixOf_ex {p l : List Char} (h : p.isPrefixOf l = true) :
    ∃ t, l = p ++ t := by
  induction p generalizing l with
  | nil => exact ⟨l, rfl⟩
  | cons a as ih =>
    cases l with
    | nil => simp at h
    | cons b bs =>
      simp only [List.isPrefixOf_cons₂, Bool.and_eq_true, beq_iff_eq] at h
      obtain ⟨rfl, h2⟩ := h
      obtain ⟨t, rfl⟩ := ih h2
      exact ⟨t, rfl⟩

lemma stepLine_diffGit (st : Cursor) (t : List Char) :
    stepLine st (sDiffGit ++ t) = ({ st with cur_file := none }, none) := by
  have h : sDiffGit.isPrefixOf (sDiffGit ++ t) = true := isPrefixOf_append_self _ _
  simp [stepLine, h]

lemma stepLine_ppp (st : Cursor) (t : List Char) :
    stepLine st (sPPP ++ t) =
      ({ st with cur_file := if sB.isPrefixOf t then some (t.drop 2) else none }, none) := by
  have h1 : sDiffGit.isPrefixOf (sPPP ++ t) = false := by
    simp +decide [sDiffGit_def, sPPP_def, List.isPrefixOf_cons₂]
  have h2 : sPPP.isPrefixOf (sPPP ++ t) = true := isPrefixOf_append_self _ _
  have h3 : (sPPP ++ t).drop 4 = t := by
    simp [sPPP_def]
  simp [stepLine, h1, h2, h3]

lemma stepLine_mmm (st : Cursor) (t : List Char) :
    stepLine st (sMMM ++ t) = (st, none) := by
  have h1 : sDiffGit.isPrefixOf (sMMM ++ t) = false := by
    simp +decide [sDiffGit_def, sMMM_def, List.isPrefixOf_cons₂]
  have h2 : sPPP.isPrefixOf (sMMM ++ t) = false := by
    simp +decide [sPPP_def, sMMM_def, List.isPrefixOf_cons₂]
  have h3 : sMMM.isPrefixOf (sMMM ++ t) = true := isPrefixOf_append_self _ _
  simp [stepLine, h1, h2, h3]

lemma stepLine_binary (st : Cursor) (l : List Char)
    (hb : containsStr sBinary l = true)
    (h1 : sDiffGit.isPrefixOf l = false)
    (h2 : sPPP.isPrefixOf l = false)
    (h3 : sMMM.isPrefixOf l = false) :
    stepLine st l = ({ st with cur_file := none }, none) := by
  simp [stepLine, h1, h2, h3, hb]

lemma stepLine_hunk (st : Cursor) (t : List Char)
    (hbin : containsStr sBinary (sAt ++ t) = false) :
    stepLine st (sAt ++ t) =
      (match parseHunkHeader (sAt ++ t) with
        | some ab => ({ st with old_line := some ab.1, new_line := some ab.2 }, none)
        | none => ({ st with old_line := none, new_line := none }, none)) := by
  have h1 : sDiffGit.isPrefixOf (sAt ++ t) = false := by
    simp +decide [sDiffGit_def, sAt_def, List.isPrefixOf_cons₂]
  have h2 : sPPP.isPrefixOf (sAt ++ t) = false := by
    simp +decide [sPPP_def, sAt_def, List.isPrefixOf_cons₂]
  have h3 : sMMM.isPrefixOf (sAt ++ t) = false := by
    simp +decide [sMMM_def, sAt_def, List.isPrefixOf_cons₂]
  have h4 : sGitBin.isPrefixOf (sAt ++ t) = false := by
    simp +decide [sGitBin_def, sAt_def, List.isPrefixOf_cons₂]
  have h5 : sAt.isPrefixOf (sAt ++ t) = true := isPrefixOf_append_self _ _
  simp only [stepLine, h1, h2, h3, h4, h5, hbin, Bool.false_eq_true, if_false,
    Bool.or_self, if_true]

lemma stepLine_plus (f : List Char) (o n : Int) (t : List Char)
    (hpp : sPP2.isPrefixOf t = false)
    (hbin : containsStr sBinary ('+' :: t) = false) :
    stepLine ⟨some f, some o, some n⟩ ('+' :: t) =
      (⟨some f, some o, some (n + 1)⟩, some ⟨f, n, ChangeKind.add, t⟩) := by
  have h1 : sDiffGit.isPrefixOf ('+' :: t) = false := by
    simp +decide [sDiffGit_def, List.isPrefixOf_cons₂]
  have h2 : sPPP.isPrefixOf ('+' :: t) = sPP2.isPrefixOf t := by
    simp [sPPP_def, sPP2_def, List.isPrefixOf_cons₂]
  have h3 : sMMM.isPrefixOf ('+' :: t) = false := by
    simp +decide [sMMM_def, List.isPrefixOf_cons₂]
  have h4 : sGitBin.isPrefixOf ('+' :: t) = false := by
    simp +decide [sGitBin_def, List.isPrefixOf_cons₂]
  have h5 : sAt.isPrefixOf ('+' :: t) = false := by
    simp +decide [sAt_def, List.isPrefixOf_cons₂]
  have h6 : sNoNl.isPrefixOf ('+' :: t) = false := by
    simp +decide [sNoNl_def, List.isPrefixOf_cons₂]
  have h7 : sPlus.isPrefixOf ('+' :: t) = true := by
    simp [sPlus_def, List.isPrefixOf_cons₂]
  simp [stepLine, h1, h2, h3, h4, h5, h6, h7, hpp, hbin]

lemma stepLine_minus (f : List Char) (o n : Int) (t : List Char)
    (hmm : sMM2.isPrefixOf t = false)
    (hbin : containsStr sBinary ('-' :: t) = false) :
    stepLine ⟨some f, some o, some n⟩ ('-' :: t) =
      (⟨some f, some (o + 1), some n⟩, some ⟨f, o, ChangeKind.del, t⟩) := by
  have h1 : sDiffGit.isPrefixOf ('-' :: t) = false := by
    simp +decide [sDiffGit_def, List.isPrefixOf_cons₂]
  have h2 : sPPP.isPrefixOf ('-' :: t) = false := by
    simp +decide [sPPP_def, List.isPrefixOf_cons₂]
  have h3 : sMMM.isPrefixOf ('-' :: t) = sMM2.isPrefixOf t := by
    simp [sMMM_def, sMM2_def, List.isPrefixOf_cons₂]
  have h4 : sGitBin.isPrefixOf ('-' :: t) = false := by
    simp +decide [sGitBin_def, List.isPrefixOf_cons₂]
  have h5 : sAt.isPrefixOf ('-' :: t) = false := by
    simp +decide [sAt_def, List.isPrefixOf_cons₂]
  have h6 : sNoNl.isPrefixOf ('-' :: t) = false := by
    simp +decide [sNoNl_def, List.isPrefixOf_cons₂]
  have h7 : sPlus.isPrefixOf ('-' :: t) = false := by
    simp +decide [sPlus_def, List.isPrefixOf_cons₂]
  have h8 : sMinus.isPrefixOf ('-' :: t) = true := by
    simp [sMinus_def, List.isPrefixOf_cons₂]
  simp [stepLine, h1, h2, h3, h4, h5, h6, h7, h8, hmm, hbin]

set_option maxHeartbeats 1600000 in
lemma stepLine_drop (st : Cursor) (l : List Char)
    (h : st.cur_file = none ∨ st.old_line = none ∨ st.new_line = none) :
    (stepLine st l).2 = none := by
  obtain ⟨cf, ol, nl⟩ := st
  unfold stepLine
  split_ifs <;> try rfl
  all_goals try (split <;> rfl)
  all_goals rcases h with h | h | h <;> simp_all

set_option maxHeartbeats 1600000 in
lemma stepLine_counters_src (st : Cursor) (l : List Char)
    (h : st.old_line = none ∨ st.new_line = none)
    (h2 : (stepLine st l).1.old_line ≠ none)
    (h3 : (stepLine st l).1.new_line ≠ none) :
    ∃ ab, parseHunkHeader l = some ab ∧
      (stepLine st l).1.old_line = some ab.1 ∧
      (stepLine st l).1.new_line = some ab.2 ∧
      sAt.isPrefixOf l = true := by
  obtain ⟨cf, ol, nl⟩ := st
  unfold stepLine at h2 h3 ⊢
  split_ifs at h2 h3 ⊢
  · rcases h with h | h
    exacts [absurd h h2, absurd h h3]
  · rcases h with h | h
    exacts [absurd h h2, absurd h h3]
  · rcases h with h | h
    exacts [absurd h h2, absurd h h3]
  · rcases h with h | h
    exacts [absurd h h2, absurd h h3]
  · rcases h with h | h
    exacts [absurd h h2, absurd h h3]
  · rcases hph : parseHunkHeader l with _ | ab
    · rw [hph] at h2
      exact absurd rfl h2
    · exact ⟨ab, rfl, rfl, rfl, by assumption⟩
  · rcases h with h | h
    exacts [absurd h h2, absurd h h3]
  · rcases h with h | h
    exacts [absurd h h2, absurd h h3]
  all_goals
    rcases h with h | h <;>
      first
      | exact absurd h h2
      | exact absurd h h3
      | simp_all

set_option maxHeartbeats 1600000 in
lemma stepLine_cur_file_src (st : Cursor) (l : List Char)
    (h : st.cur_file = none)
    (h2 : (stepLine st l).1.cur_file ≠ none) :
    sPlusB.isPrefixOf l = true := by
  obtain ⟨cf, ol, nl⟩ := st
  have hc : cf = none := h
  subst hc
  unfold stepLine at h2
  split_ifs at h2
  all_goals try (exact absurd rfl h2)
  all_goals try (rcases hph : parseHunkHeader l with _ | ab <;> rw [hph] at h2 <;> exact absurd rfl h2)
  have hp2 : sPPP.isPrefixOf l = true := by assumption
  have hsb : sB.isPrefixOf (l.drop 4) = true := by assumption
  obtain ⟨t, rfl⟩ := isPrefixOf_ex hp2
  have hdrop : (sPPP ++ t).drop 4 = t := by simp [sPPP_def]
  rw [hdrop] at hsb
  obtain ⟨u, rfl⟩ := isPrefixOf_ex hsb
  have hjoin : sPPP ++ (sB ++ u) = sPlusB ++ u := by
    simp [sPPP_def, sB_def, sPlusB_def]
  rw [hjoin]
  exact isPrefixOf_append_self _ _

lemma runFrom_append (st : Cursor) (xs ys : List (List Char)) :
    runFrom st (xs ++ ys) =
      ((runFrom (runFrom st xs).1 ys).1,
        (runFrom st xs).2 ++ (runFrom (runFrom st xs).1 ys).2) := by
  induction xs generalizing st with
  | nil => simp [runFrom]
  | cons l ls ih => simp [runFrom, ih]

lemma runFrom_length (st : Cursor) (ls : List (List Char)) :
    (runFrom st ls).2.length ≤ ls.length := by
  induction ls generalizing st with
  | nil => simp [runFrom]
  | cons l ls ih =>
    have h1 := ih (processLine st l).1
    have h2 : (processLine st l).2.toList.length ≤ 1 := by
      cases (processLine st l).2 <;> simp
    simp only [runFrom, List.length_append, List.length_cons]
    omega

set_option maxHeartbeats 1600000 in
lemma stepLine_pos (st : Cursor) (l : List Char)
    (hst : countersPos st) (hl : goodStartsL l = true) :
    countersPos (stepLine st l).1 ∧
      ∀ r, (stepLine st l).2 = some r → 1 ≤ r.line := by
  obtain ⟨cf, ol, nl⟩ := st
  obtain ⟨ho, hn⟩ := hst
  cases hres : stepLine ⟨cf, ol, nl⟩ l with
  | mk st2 rec =>
  unfold stepLine at hres
  split_ifs at hres
  · injection hres with e1 e2
    subst e1
    subst e2
    exact ⟨⟨ho, hn⟩, fun r hr => by simp at hr⟩
  · injection hres with e1 e2
    subst e1
    subst e2
    exact ⟨⟨ho, hn⟩, fun r hr => by simp at hr⟩
  · injection hres with e1 e2
    subst e1
    subst e2
    exact ⟨⟨ho, hn⟩, fun r hr => by simp at hr⟩
  · injection hres with e1 e2
    subst e1
    subst e2
    exact ⟨⟨ho, hn⟩, fun r hr => by simp at hr⟩
  · injection hres with e1 e2
    subst e1
    subst e2
    exact ⟨⟨ho, hn⟩, fun r hr => by simp at hr⟩
  · rcases hph : parseHunkHeader l with _ | ab <;> rw [hph] at hres <;>
      injection hres with e1 e2 <;> subst e1 <;> subst e2
    · exact ⟨⟨fun v hv => by simp at hv, fun v hv => by simp at hv⟩,
        fun r hr => by simp at hr⟩
    · unfold goodStartsL at hl
      rw [hph] at hl
      simp only [decide_eq_true_eq] at hl
      obtain ⟨hl1, hl2⟩ := hl
      refine ⟨⟨fun v hv => ?_, fun v hv => ?_⟩, fun r hr => by simp at hr⟩
      · have hv2 : ab.1 = v := by simpa using hv
        omega
      · have hv2 : ab.2 = v := by simpa using hv
        omega
  · injection hres with e1 e2
    subst e1
    subst e2
    exact ⟨⟨ho, hn⟩, fun r hr => by simp at hr⟩
  · injection hres with e1 e2
    subst e1
    subst e2
    exact ⟨⟨ho, hn⟩, fun r hr => by simp at hr⟩
  · have hu2 : ¬(cf.isNone || ol.isNone || nl.isNone) = true := by assumption
    rcases cf with _ | f
    · simp at hu2
    rcases ol with _ | o
    · simp at hu2
    rcases nl with _ | n
    · simp at hu2
    injection hres with e1 e2
    subst e1
    subst e2
    have ho1 : 1 ≤ o := ho _ rfl
    have hn1 : 1 ≤ n := hn _ rfl
    refine ⟨⟨fun v hv => ?_, fun v hv => ?_⟩, fun r hr => ?_⟩
    · have hv2 : o = v := by simpa using hv
      omega
    · have hv2 : n + 1 = v := by simpa using hv
      omega
    · injection hr with hr2
      rw [← hr2]
      exact hn1
  · have hu2 : ¬(cf.isNone || ol.isNone || nl.isNone) = true := by assumption
    rcases cf with _ | f
    · simp at hu2
    rcases ol with _ | o
    · simp at hu2
    rcases nl with _ | n
    · simp at hu2
    injection hres with e1 e2
    subst e1
    subst e2
    have ho1 : 1 ≤ o := ho _ rfl
    have hn1 : 1 ≤ n := hn _ rfl
    refine ⟨⟨fun v hv => ?_, fun v hv => ?_⟩, fun r hr => ?_⟩
    · have hv2 : o + 1 = v := by simpa using hv
      omega
    · have hv2 : n = v := by simpa using hv
      omega
    · injection hr with hr2
      rw [← hr2]
      exact ho1
  · have hu2 : ¬(cf.isNone || ol.isNone || nl.isNone) = true := by assumption
    rcases cf with _ | f
    · simp at hu2
    rcases ol with _ | o
    · simp at hu2
    rcases nl with _ | n
    · simp at hu2
    injection hres with e1 e2
    subst e1
    subst e2
    have ho1 : 1 ≤ o := ho _ rfl
    have hn1 : 1 ≤ n := hn _ rfl
    refine ⟨⟨fun v hv => ?_, fun v hv => ?_⟩, fun r hr => by simp at hr⟩
    · have hv2 : o + 1 = v := by simpa using hv
      omega
    · have hv2 : n + 1 = v := by simpa using hv
      omega

lemma runFrom_pos (ls : List (List Char)) :
    ∀ st : Cursor, countersPos st → (∀ l ∈ ls, goodStarts l = true) →
      ∀ r ∈ (runFrom st ls).2, 1 ≤ r.line := by
  induction ls with
  | nil => simp [runFrom]
  | cons l ls ih =>
    intro st hst hgood r hr
    have hstep := stepLine_pos st (rstripNl l) hst (hgood l (by simp))
    simp only [runFrom, List.mem_append] at hr
    rcases hr with hr | hr
    · simp only [Option.mem_toList, Option.mem_def] at hr
      exact hstep.2 r hr
    · exact ih (processLine st l).1 hstep.1 (fun l' h' => hgood l' (by simp [h'])) r hr

lemma processLine_of_noNl (st : Cursor) (raw : List Char) (h : noNl raw = true) :
    processLine st raw = stepLine st raw := by
  unfold processLine
  rw [show rstripNl raw = raw from by simpa [noNl] using h]

lemma stepLine_pppB (st : Cursor) (p : List Char) :
    stepLine st (sPlusB ++ p) = ({ st with cur_file := some p }, none) := by
  have h : sPlusB ++ p = sPPP ++ (sB ++ p) := by simp [sPlusB_def, sPPP_def, sB_def]
  rw [h, stepLine_ppp]
  have h2 : sB.isPrefixOf (sB ++ p) = true := isPrefixOf_append_self _ _
  have h3 : (sB ++ p).drop 2 = p := by simp [sB_def]
  rw [h2, h3]
  simp

lemma stepLine_goodHunk (st : Cursor) (l : List Char)
    (hg : isGoodHunkHeader l = true) :
    ∃ ab, parseHunkHeader l = some ab ∧
      stepLine st l = ({ st with old_line := some ab.1, new_line := some ab.2 }, none) := by
  unfold isGoodHunkHeader at hg
  simp only [Bool.and_eq_true, Bool.not_eq_true] at hg
  obtain ⟨⟨⟨hnn, hpre⟩, hbin⟩, hsome⟩ := hg
  obtain ⟨t, rfl⟩ := isPrefixOf_ex hpre
  obtain ⟨ab, hab⟩ := Option.isSome_iff_exists.mp hsome
  have hb : containsStr sBinary (sAt ++ t) = false := by
    simpa using hbin
  have hstep := stepLine_hunk st t hb
  rw [hab] at hstep
  exact ⟨ab, hab, hstep⟩

lemma runFrom_hunks_indep (hs : List HunkData) (hwf : hs.all wfHunk = true)
    (c : Option (List Char)) (o n o2 n2 : Option Int) :
    (runFrom ⟨c, o, n⟩ (renderHunks hs)).2 = (runFrom ⟨c, o2, n2⟩ (renderHunks hs)).2 := by
  cases hs with
  | nil => rfl
  | cons h t =>
    have hw : wfHunk h = true := by
      have := hwf
      simp only [List.all_cons, Bool.and_eq_true] at this
      exact this.1
    have hg : isGoodHunkHeader h.header = true := by
      unfold wfHunk at hw
      simp only [Bool.and_eq_true] at hw
      exact hw.1
    have hnn : noNl h.header = true := by
      unfold isGoodHunkHeader at hg
      simp only [Bool.and_eq_true] at hg
      exact hg.1.1.1
    obtain ⟨ab, hab, hstep1⟩ := stepLine_goodHunk ⟨c, o, n⟩ h.header hg
    obtain ⟨ab2, hab2, hstep2⟩ := stepLine_goodHunk ⟨c, o2, n2⟩ h.header hg
    rw [hab] at hab2
    injection hab2 with e
    subst e
    show (runFrom ⟨c, o, n⟩ (h.header :: (h.body ++ renderHunks t))).2 =
      (runFrom ⟨c, o2, n2⟩ (h.header :: (h.body ++ renderHunks t))).2
    simp only [runFrom, processLine_of_noNl _ _ hnn, hstep1, hstep2]

lemma runFrom_fileDiff_indep (d : FileDiffData) (hwf : wfFileDiff d = true) (s : Cursor) :
    (runFrom s (renderFileDiff d)).2 = (runFrom initCursor (renderFileDiff d)).2 := by
  obtain ⟨cf, ol, nl⟩ := s
  unfold wfFileDiff at hwf
  simp only [Bool.and_eq_true] at hwf
  obtain ⟨⟨⟨hn1, hn2⟩, hn3⟩, hhunks⟩ := hwf
  show (runFrom ⟨cf, ol, nl⟩
      ((sDiffGit ++ d.gitLine) :: (sMMM ++ d.oldHdr) :: (sPlusB ++ d.path) ::
        renderHunks d.hunks)).2 = _
  simp only [initCursor, runFrom, processLine_of_noNl _ _ hn1, processLine_of_noNl _ _ hn2,
    processLine_of_noNl _ _ hn3, stepLine_diffGit, stepLine_mmm, stepLine_pppB]
  exact runFrom_hunks_indep d.hunks hhunks (some d.path) ol nl none none

lemma runFrom_diffs_concat (ds : List FileDiffData) (hwf : ds.all wfFileDiff = true) :
    ∀ s : Cursor, (runFrom s (renderDiffs ds)).2 =
      listFlat (ds.map (fun d => iter_changes (renderFileDiff d))) := by
  induction ds with
  | nil => intro s; rfl
  | cons d t ih =>
    intro s
    have hw : wfFileDiff d = true ∧ t.all wfFileDiff = true := by
      simpa using hwf
    show (runFrom s (renderFileDiff d ++ renderDiffs t)).2 = _
    rw [runFrom_append]
    simp only [List.map, listFlat]
    rw [runFrom_fileDiff_indep d hw.1 s, ih hw.2]
    rfl

lemma processLine_plus (f : List Char) (o n : Int) (t : List Char)
    (hstrip : rstripNl ('+' :: t) = '+' :: t)
    (hpp : sPP2.isPrefixOf t = false)
    (hbin : containsStr sBinary ('+' :: t) = false) :
    processLine ⟨some f, some o, some n⟩ ('+' :: t) =
      (⟨some f, some o, some (n + 1)⟩, some ⟨f, n, ChangeKind.add, t⟩) := by
  unfold processLine
  rw [hstrip]
  exact stepLine_plus f o n t hpp hbin

lemma processLine_minus (f : List Char) (o n : Int) (t : List Char)
    (hstrip : rstripNl ('-' :: t) = '-' :: t)
    (hmm : sMM2.isPrefixOf t = false)
    (hbin : containsStr sBinary ('-' :: t) = false) :
    processLine ⟨some f, some o, some n⟩ ('-' :: t) =
      (⟨some f, some (o + 1), some n⟩, some ⟨f, o, ChangeKind.del, t⟩) := by
  unfold processLine
  rw [hstrip]
  exact stepLine_minus f o n t hmm hbin

/-- C1: for every input sequence of text lines the extraction runs to
completion (iter_changes is a total function of the input) and yields at
most one ChangeRecord per input line, so malformed content can only lead
to fewer or zero records, never to an error surfaced to the caller. -/
theorem c1_extractor_total (diff_lines : List (List Char)) :
    (iter_changes diff_lines).length ≤ diff_lines.length :=
  runFrom_length initCursor diff_lines

/-- C2 counterexample: a diff --git line does not clear the counters.
Processing it in a state where both counters are defined leaves both
counters defined, contradicting the claim that it clears them. -/
theorem c2_counterexample :
    (processLine ⟨some (chars (r"f")), some 5, some 7⟩
        (chars (r"diff --git a/g b/g"))).1 = ⟨none, some 5, some 7⟩ ∧
    (processLine ⟨some (chars (r"f")), some 5, some 7⟩
        (chars (r"diff --git a/g b/g"))).1.old_line ≠ none := by
  decide

/-- C2 (amended): a line beginning with diff --git sets cur_file to none,
emits nothing, and leaves both counters unchanged; two consecutive such
lines emit no records and leave cur_file reset while the counters retain
their previous values. -/
theorem c2_diff_git_reset (st : Cursor) (l1 l2 : List Char)
    (h1 : sDiffGit.isPrefixOf (rstripNl l1) = true)
    (h2 : sDiffGit.isPrefixOf (rstripNl l2) = true) :
    processLine st l1 = (⟨none, st.old_line, st.new_line⟩, none) ∧
    runFrom st [l1, l2] = (⟨none, st.old_line, st.new_line⟩, []) := by
  obtain ⟨t1, he1⟩ := isPrefixOf_ex h1
  obtain ⟨t2, he2⟩ := isPrefixOf_ex h2
  have p1 : processLine st l1 = (⟨none, st.old_line, st.new_line⟩, none) := by
    unfold processLine
    rw [he1, stepLine_diffGit]
  have p2 : processLine ⟨none, st.old_line, st.new_line⟩ l2 =
      (⟨none, st.old_line, st.new_line⟩, none) := by
    unfold processLine
    rw [he2, stepLine_diffGit]
  refine ⟨p1, ?_⟩
  simp [runFrom, p1, p2]

/-- C2 witness: the amended statement evaluated at a concrete state with
both counters set and two concrete diff --git lines. -/
theorem c2_diff_git_reset_witness :
    sDiffGit.isPrefixOf (rstripNl (chars (r"diff --git a/x b/x"))) = true ∧
    (processLine ⟨some (chars (r"f")), some 5, some 7⟩ (chars (r"diff --git a/x b/x")) =
        (⟨none, some 5, some 7⟩, none) ∧
      runFrom ⟨some (chars (r"f")), some 5, some 7⟩
          [chars (r"diff --git a/x b/x"), chars (r"diff --git a/y b/y")] =
        (⟨none, some 5, some 7⟩, [])) :=
  ⟨by decide,
   c2_diff_git_reset ⟨some (chars (r"f")), some 5, some 7⟩
     (chars (r"diff --git a/x b/x")) (chars (r"diff --git a/y b/y"))
     (by decide) (by decide)⟩

/-- C3 counterexample: the line +stray sits after the new-file header of g
and before the first hunk header of g, yet it produces the middle record,
numbered with the counter left over from the previous file section. -/
theorem c3_counterexample :
    iter_changes [chars (r"diff --git a/f b/f"), chars (r"+++ b/f"),
        chars (r"@@ -1,0 +1,1 @@"), chars (r"+x"), chars (r"diff --git a/g b/g"),
        chars (r"+++ b/g"), chars (r"+stray"), chars (r"@@ -1,0 +1,1 @@"),
        chars (r"+real")] =
      [⟨chars (r"f"), 1, ChangeKind.add, chars (r"x")⟩,
       ⟨chars (r"g"), 2, ChangeKind.add, chars (r"stray")⟩,
       ⟨chars (r"g"), 1, ChangeKind.add, chars (r"real")⟩] := by
  decide

/-- C3 (amended): a line reached with either counter undefined — in
particular any line before the first successfully parsed hunk header of
the input — produces no record; and the numbering of any subsequent hunk
is never shifted, because a good hunk header determines both counters
identically from any prior state. -/
theorem c3_pre_hunk_drop :
    (∀ (st : Cursor) (l : List Char), st.old_line = none ∨ st.new_line = none →
        (processLine st l).2 = none) ∧
    (∀ (s1 s2 : Cursor) (l : List Char), isGoodHunkHeader (rstripNl l) = true →
        (processLine s1 l).1.old_line = (processLine s2 l).1.old_line ∧
        (processLine s1 l).1.new_line = (processLine s2 l).1.new_line) := by
  constructor
  · intro st l h
    exact stepLine_drop st (rstripNl l) (Or.inr h)
  · intro s1 s2 l hg
    obtain ⟨ab, hab, hs1⟩ := stepLine_goodHunk s1 (rstripNl l) hg
    obtain ⟨ab2, hab2, hs2⟩ := stepLine_goodHunk s2 (rstripNl l) hg
    rw [hab] at hab2
    injection hab2 with e
    subst e
    unfold processLine
    rw [hs1, hs2]
    exact ⟨rfl, rfl⟩

/-- C3 witness: the amended statement at a concrete pre-hunk state and a
concrete hunk header processed from two different states. -/
theorem c3_pre_hunk_drop_witness :
    ((⟨some (chars (r"g")), none, none⟩ : Cursor).old_line = none ∨
        (⟨some (chars (r"g")), none, none⟩ : Cursor).new_line = none) ∧
    (processLine ⟨some (chars (r"g")), none, none⟩ (chars (r"+stray"))).2 = none ∧
    isGoodHunkHeader (rstripNl (chars (r"@@ -4,0 +9,1 @@"))) = true ∧
    ((processLine ⟨some (chars (r"g")), some 3, some 8⟩
          (chars (r"@@ -4,0 +9,1 @@"))).1.old_line =
        (processLine initCursor (chars (r"@@ -4,0 +9,1 @@"))).1.old_line ∧
      (processLine ⟨some (chars (r"g")), some 3, some 8⟩
          (chars (r"@@ -4,0 +9,1 @@"))).1.new_line =
        (processLine initCursor (chars (r"@@ -4,0 +9,1 @@"))).1.new_line) :=
  ⟨Or.inl rfl,
   c3_pre_hunk_drop.1 ⟨some (chars (r"g")), none, none⟩ (chars (r"+stray")) (Or.inl rfl),
   by decide,
   c3_pre_hunk_drop.2 ⟨some (chars (r"g")), some 3, some 8⟩ initCursor
     (chars (r"@@ -4,0 +9,1 @@")) (by decide)⟩

/-- C4 counterexample: the hunk header with old start zero, as git emits
for a newly created file, followed by a deletion line, yields a record
with line number zero, which is not positive. -/
theorem c4_counterexample :
    iter_changes [chars (r"diff --git a/f b/f"), chars (r"--- a/f"),
        chars (r"+++ b/f"), chars (r"@@ -0,0 +1,1 @@"), chars (r"-gone")] =
      [⟨chars (r"f"), 0, ChangeKind.del, chars (r"gone")⟩] := by
  decide

/-- C4 (amended): when every successfully parsed hunk header of the input
has both starts at least one, every emitted record has a line number of
at least one; additions are numbered from the new counter and deletions
from the old counter by construction of the scan. -/
theorem c4_positive_lines (diff_lines : List (List Char))
    (h : ∀ l ∈ diff_lines, goodStarts l = true) :
    ∀ r ∈ iter_changes diff_lines, 1 ≤ r.line := by
  refine runFrom_pos diff_lines initCursor ⟨?_, ?_⟩ h <;> intro v hv <;>
    simp [initCursor] at hv

/-- C4 witness: the amended statement on a concrete diff whose hunk
header starts are positive. -/
theorem c4_positive_lines_witness :
    (∀ l ∈ [chars (r"diff --git a/f b/f"), chars (r"+++ b/f"),
        chars (r"@@ -3,0 +7,1 @@"), chars (r"+hi")], goodStarts l = true) ∧
    ∀ r ∈ iter_changes [chars (r"diff --git a/f b/f"), chars (r"+++ b/f"),
        chars (r"@@ -3,0 +7,1 @@"), chars (r"+hi")], 1 ≤ r.line :=
  ⟨by decide,
   c4_positive_lines [chars (r"diff --git a/f b/f"), chars (r"+++ b/f"),
     chars (r"@@ -3,0 +7,1 @@"), chars (r"+hi")] (by decide)⟩

/-- C5 counterexample: the fifth line begins with a plus sign but also
with the new-file header marker, so it is classified as a header, unsets
cur_file, and the claimed two Addition records at 10 and 11 never
appear — the output is empty. -/
theorem c5_counterexample :
    iter_changes [chars (r"diff --git a/foo.txt b/foo.txt"), chars (r"--- a/foo.txt"),
        chars (r"+++ b/foo.txt"), chars (r"@@ -10,0 +10,2 @@"), chars (r"+++ x"),
        chars (r"+second")] = [] := by
  decide

/-- C5 (amended): for the single-file input with hunk header for starts
10 and 10 followed by two addition lines that do not begin with the
new-file marker and do not contain the binary marker, the output is
exactly two Addition records for foo.txt, numbered 10 and 11, with the
leading plus removed from the texts. -/
theorem c5_two_additions (t1 t2 : List Char)
    (hs1 : rstripNl ('+' :: t1) = '+' :: t1)
    (hp1 : sPP2.isPrefixOf t1 = false)
    (hb1 : containsStr sBinary ('+' :: t1) = false)
    (hs2 : rstripNl ('+' :: t2) = '+' :: t2)
    (hp2 : sPP2.isPrefixOf t2 = false)
    (hb2 : containsStr sBinary ('+' :: t2) = false) :
    iter_changes [chars (r"diff --git a/foo.txt b/foo.txt"), chars (r"--- a/foo.txt"),
        chars (r"+++ b/foo.txt"), chars (r"@@ -10,0 +10,2 @@"), '+' :: t1, '+' :: t2] =
      [⟨chars (r"foo.txt"), 10, ChangeKind.add, t1⟩,
       ⟨chars (r"foo.txt"), 11, ChangeKind.add, t2⟩] := by
  have h1 : runFrom initCursor [chars (r"diff --git a/foo.txt b/foo.txt"),
      chars (r"--- a/foo.txt"), chars (r"+++ b/foo.txt"), chars (r"@@ -10,0 +10,2 @@")] =
      (⟨some (chars (r"foo.txt")), some 10, some 10⟩, []) := by decide
  have h5 := processLine_plus (chars (r"foo.txt")) 10 10 t1 hs1 hp1 hb1
  have h6 := processLine_plus (chars (r"foo.txt")) 10 11 t2 hs2 hp2 hb2
  show iter_changes ([chars (r"diff --git a/foo.txt b/foo.txt"), chars (r"--- a/foo.txt"),
      chars (r"+++ b/foo.txt"), chars (r"@@ -10,0 +10,2 @@")] ++ ['+' :: t1, '+' :: t2]) = _
  unfold iter_changes
  rw [runFrom_append, h1]
  simp [runFrom, h5, h6]

/-- C5 witness: the amended statement at the two concrete addition lines
of the spec example. -/
theorem c5_two_additions_witness :
    sPP2.isPrefixOf (chars (r"line one")) = false ∧
    iter_changes [chars (r"diff --git a/foo.txt b/foo.txt"), chars (r"--- a/foo.txt"),
        chars (r"+++ b/foo.txt"), chars (r"@@ -10,0 +10,2 @@"),
        '+' :: chars (r"line one"), '+' :: chars (r"line two")] =
      [⟨chars (r"foo.txt"), 10, ChangeKind.add, chars (r"line one")⟩,
       ⟨chars (r"foo.txt"), 11, ChangeKind.add, chars (r"line two")⟩] :=
  ⟨by decide,
   c5_two_additions (chars (r"line one")) (chars (r"line two"))
     (by decide) (by decide) (by decide) (by decide) (by decide) (by decide)⟩

/-- C6 counterexample: the fifth line begins with a minus sign but also
with the old-file header marker, so it is consumed silently and only one
Deletion record appears instead of the claimed two at 5 and 6. -/
theorem c6_counterexample :
    iter_changes [chars (r"diff --git a/foo.txt b/foo.txt"), chars (r"--- a/foo.txt"),
        chars (r"+++ b/foo.txt"), chars (r"@@ -5,2 +5,0 @@"), chars (r"--- y"),
        chars (r"-z")] =
      [⟨chars (r"foo.txt"), 5, ChangeKind.del, chars (r"z")⟩] := by
  decide

/-- C6 (amended): for the single-file input with hunk header for starts
5 and 5 followed by two deletion lines that do not begin with the
old-file marker and do not contain the binary marker, the output is
exactly two Deletion records numbered 5 and 6, with the leading minus
removed from the texts. -/
theorem c6_two_deletions (t1 t2 : List Char)
    (hs1 : rstripNl ('-' :: t1) = '-' :: t1)
    (hm1 : sMM2.isPrefixOf t1 = false)
    (hb1 : containsStr sBinary ('-' :: t1) = false)
    (hs2 : rstripNl ('-' :: t2) = '-' :: t2)
    (hm2 : sMM2.isPrefixOf t2 = false)
    (hb2 : containsStr sBinary ('-' :: t2) = false) :
    iter_changes [chars (r"diff --git a/foo.txt b/foo.txt"), chars (r"--- a/foo.txt"),
        chars (r"+++ b/foo.txt"), chars (r"@@ -5,2 +5,0 @@"), '-' :: t1, '-' :: t2] =
      [⟨chars (r"foo.txt"), 5, ChangeKind.del, t1⟩,
       ⟨chars (r"foo.txt"), 6, ChangeKind.del, t2⟩] := by
  have h1 : runFrom initCursor [chars (r"diff --git a/foo.txt b/foo.txt"),
      chars (r"--- a/foo.txt"), chars (r"+++ b/foo.txt"), chars (r"@@ -5,2 +5,0 @@")] =
      (⟨some (chars (r"foo.txt")), some 5, some 5⟩, []) := by decide
  have h5 := processLine_minus (chars (r"foo.txt")) 5 5 t1 hs1 hm1 hb1
  have h6 := processLine_minus (chars (r"foo.txt")) 6 5 t2 hs2 hm2 hb2
  show iter_changes ([chars (r"diff --git a/foo.txt b/foo.txt"), chars (r"--- a/foo.txt"),
      chars (r"+++ b/foo.txt"), chars (r"@@ -5,2 +5,0 @@")] ++ ['-' :: t1, '-' :: t2]) = _
  unfold iter_changes
  rw [runFrom_append, h1]
  simp [runFrom, h5, h6]

/-- C6 witness: the amended statement at two concrete deletion lines. -/
theorem c6_two_deletions_witness :
    sMM2.isPrefixOf (chars (r"old line")) = false ∧
    iter_changes [chars (r"diff --git a/foo.txt b/foo.txt"), chars (r"--- a/foo.txt"),
        chars (r"+++ b/foo.txt"), chars (r"@@ -5,2 +5,0 @@"),
        '-' :: chars (r"old line"), '-' :: chars (r"gone too")] =
      [⟨chars (r"foo.txt"), 5, ChangeKind.del, chars (r"old line")⟩,
       ⟨chars (r"foo.txt"), 6, ChangeKind.del, chars (r"gone too")⟩] :=
  ⟨by decide,
   c6_two_deletions (chars (r"old line")) (chars (r"gone too"))
     (by decide) (by decide) (by decide) (by decide) (by decide) (by decide)⟩

/-- C7 counterexample: a line starting with the hunk marker that contains
the binary marker is consumed by the binary branch before the hunk
branch, so although it cannot be parsed, the counters stay defined
instead of becoming undefined as the claim requires. -/
theorem c7_counterexample :
    parseHunkHeader (chars (r"@@ Binary files @@")) = none ∧
    processLine ⟨some (chars (r"f")), some 3, some 4⟩ (chars (r"@@ Binary files @@")) =
      (⟨none, some 3, some 4⟩, none) := by
  decide

/-- C7 (amended): a line starting with the hunk marker that does not
contain the binary marker and fails to parse makes both counters
undefined and emits nothing; while either counter is undefined no line
emits a record; and the counters can only become defined again through a
line whose hunk header parses successfully.  All of this is by total
functions, so no error reaches the caller. -/
theorem c7_malformed_hunk :
    (∀ (st : Cursor) (l : List Char), sAt.isPrefixOf (rstripNl l) = true →
        containsStr sBinary (rstripNl l) = false →
        parseHunkHeader (rstripNl l) = none →
        processLine st l = (⟨st.cur_file, none, none⟩, none)) ∧
    (∀ (st : Cursor) (l : List Char), st.old_line = none ∨ st.new_line = none →
        (processLine st l).2 = none) ∧
    (∀ (st : Cursor) (l : List Char), st.old_line = none ∨ st.new_line = none →
        (processLine st l).1.old_line ≠ none → (processLine st l).1.new_line ≠ none →
        ∃ ab, parseHunkHeader (rstripNl l) = some ab ∧
          (processLine st l).1.old_line = some ab.1 ∧
          (processLine st l).1.new_line = some ab.2 ∧
          sAt.isPrefixOf (rstripNl l) = true) := by
  refine ⟨?_, ?_, ?_⟩
  · intro st l hat hbin hnone
    obtain ⟨t, he⟩ := isPrefixOf_ex hat
    rw [he] at hbin hnone
    unfold processLine
    rw [he, stepLine_hunk st t hbin, hnone]
  · intro st l h
    exact stepLine_drop st (rstripNl l) (Or.inr h)
  · intro st l h h2 h3
    exact stepLine_counters_src st (rstripNl l) h h2 h3

/-- C7 witness: the amended statement at a concrete malformed hunk
header, a concrete dropped content line, and a concrete recovery. -/
theorem c7_malformed_hunk_witness :
    parseHunkHeader (rstripNl (chars (r"@@ bogus @@"))) = none ∧
    processLine ⟨some (chars (r"f")), some 3, some 4⟩ (chars (r"@@ bogus @@")) =
      (⟨some (chars (r"f")), none, none⟩, none) ∧
    (processLine ⟨some (chars (r"f")), none, none⟩ (chars (r"+dropped"))).2 = none ∧
    (∃ ab, parseHunkHeader (rstripNl (chars (r"@@ -2,0 +6,1 @@"))) = some ab ∧
      (processLine ⟨some (chars (r"f")), none, none⟩
          (chars (r"@@ -2,0 +6,1 @@"))).1.old_line = some ab.1 ∧
      (processLine ⟨some (chars (r"f")), none, none⟩
          (chars (r"@@ -2,0 +6,1 @@"))).1.new_line = some ab.2 ∧
      sAt.isPrefixOf (rstripNl (chars (r"@@ -2,0 +6,1 @@"))) = true) :=
  ⟨by decide,
   c7_malformed_hunk.1 ⟨some (chars (r"f")), some 3, some 4⟩ (chars (r"@@ bogus @@"))
     (by decide) (by decide) (by decide),
   c7_malformed_hunk.2.1 ⟨some (chars (r"f")), none, none⟩ (chars (r"+dropped"))
     (Or.inl rfl),
   c7_malformed_hunk.2.2 ⟨some (chars (r"f")), none, none⟩ (chars (r"@@ -2,0 +6,1 @@"))
     (Or.inl rfl) (by decide) (by decide)⟩

/-- C8: extracting the concatenation of well-formed independent
single-file diffs in one call yields exactly the concatenation, in
order, of the per-diff extractions — so the same records with order
agreeing even at file-section boundaries. -/
theorem c8_concat (ds : List FileDiffData) (hwf : ds.all wfFileDiff = true) :
    iter_changes (renderDiffs ds) =
      listFlat (ds.map (fun d => iter_changes (renderFileDiff d))) :=
  runFrom_diffs_concat ds hwf initCursor

/-- C8 witness: two concrete well-formed single-file diffs. -/
theorem c8_concat_witness :
    ([(⟨chars (r"a/f b/f"), chars (r"a/f"), chars (r"f"),
        [⟨chars (r"@@ -1,0 +1,1 @@"), [chars (r"+x")]⟩]⟩ : FileDiffData),
      ⟨chars (r"a/g b/g"), chars (r"a/g"), chars (r"g"),
        [⟨chars (r"@@ -3,1 +3,0 @@"), [chars (r"-y")]⟩]⟩].all wfFileDiff = true) ∧
    iter_changes (renderDiffs
        [⟨chars (r"a/f b/f"), chars (r"a/f"), chars (r"f"),
          [⟨chars (r"@@ -1,0 +1,1 @@"), [chars (r"+x")]⟩]⟩,
         ⟨chars (r"a/g b/g"), chars (r"a/g"), chars (r"g"),
          [⟨chars (r"@@ -3,1 +3,0 @@"), [chars (r"-y")]⟩]⟩]) =
      listFlat ([(⟨chars (r"a/f b/f"), chars (r"a/f"), chars (r"f"),
          [⟨chars (r"@@ -1,0 +1,1 @@"), [chars (r"+x")]⟩]⟩ : FileDiffData),
         ⟨chars (r"a/g b/g"), chars (r"a/g"), chars (r"g"),
          [⟨chars (r"@@ -3,1 +3,0 @@"), [chars (r"-y")]⟩]⟩].map
        (fun d => iter_changes (renderFileDiff d))) :=
  ⟨by decide,
   c8_concat [⟨chars (r"a/f b/f"), chars (r"a/f"), chars (r"f"),
        [⟨chars (r"@@ -1,0 +1,1 @@"), [chars (r"+x")]⟩]⟩,
      ⟨chars (r"a/g b/g"), chars (r"a/g"), chars (r"g"),
        [⟨chars (r"@@ -3,1 +3,0 @@"), [chars (r"-y")]⟩]⟩] (by decide)⟩

/-- C9: extraction is a pure function of the input line sequence: running
it twice over the same immutable input yields identical outputs, with no
hidden global state. -/
theorem c9_deterministic (diff_lines : List (List Char)) :
    (runTwice diff_lines).1 = (runTwice diff_lines).2 :=
  rfl

/-- C10 counterexample: a line containing the binary marker that begins
with the old-file marker is consumed by the old-file branch first, so
cur_file is not unset, contradicting the claim for lines containing the
marker anywhere. -/
theorem c10_counterexample :
    processLine ⟨some (chars (r"f")), some 1, some 2⟩
        (chars (r"--- Binary files a and b differ")) =
      (⟨some (chars (r"f")), some 1, some 2⟩, none) := by
  decide

/-- C10 (amended): a line containing the binary marker that is not taken
by the earlier file-separator, new-file, or old-file branches unsets
cur_file and emits no record; while cur_file is unset no record is
emitted, and only a line beginning with the new-file b slash marker can
set cur_file again. -/
theorem c10_binary_reset :
    (∀ (st : Cursor) (l : List Char), containsStr sBinary (rstripNl l) = true →
        sDiffGit.isPrefixOf (rstripNl l) = false →
        sPPP.isPrefixOf (rstripNl l) = false →
        sMMM.isPrefixOf (rstripNl l) = false →
        processLine st l = (⟨none, st.old_line, st.new_line⟩, none)) ∧
    (∀ (st : Cursor) (l : List Char), st.cur_file = none →
        (processLine st l).2 = none ∧
        ((processLine st l).1.cur_file ≠ none → sPlusB.isPrefixOf (rstripNl l) = true)) := by
  constructor
  · intro st l hb h1 h2 h3
    unfold processLine
    rw [stepLine_binary st (rstripNl l) hb h1 h2 h3]
  · intro st l h
    exact ⟨stepLine_drop st (rstripNl l) (Or.inl h),
      fun h2 => stepLine_cur_file_src st (rstripNl l) h h2⟩

/-- C10 witness: the amended statement at a concrete binary marker line
and a concrete dropped content line. -/
theorem c10_binary_reset_witness :
    containsStr sBinary (rstripNl (chars (r"Binary files a/i.png and b/i.png differ"))) =
        true ∧
    processLine ⟨some (chars (r"f")), some 1, some 2⟩
        (chars (r"Binary files a/i.png and b/i.png differ")) =
      (⟨none, some 1, some 2⟩, none) ∧
    (processLine ⟨none, some 1, some 2⟩ (chars (r"+dropped"))).2 = none :=
  ⟨by decide,
   c10_binary_reset.1 ⟨some (chars (r"f")), some 1, some 2⟩
     (chars (r"Binary files a/i.png and b/i.png differ"))
     (by decide) (by decide) (by decide) (by decide),
   (c10_binary_reset.2 ⟨none, some 1, some 2⟩ (chars (r"+dropped")) rfl).1⟩
